import Mathlib

/-!
Verification of the caption timeline editor (repository paras1250/caption).

The TypeScript source is shallowly embedded: JS numbers (IEEE doubles used
here only for exact decimal arithmetic on timestamps) are modelled as exact
rationals, JS strings as lists of characters, nullable values as Option.
Each definition mirrors one function of the source; theorems settle the
frozen claims about the spec.
-/

/-! ### JS primitives used by the source -/

/-- Model of JS whitespace (the characters relevant to this code base). -/
def isJsWhitespace (c : Char) : Bool :=
  c = ' ' || c = '\t' || c = '\n' || c = '\r'

/-- Model of JS String.prototype.trim: strip whitespace from both ends. -/
def trimChars (cs : List Char) : List Char :=
  ((cs.dropWhile isJsWhitespace).reverse.dropWhile isJsWhitespace).reverse

/-- Model of JS String.prototype.padStart(n, c): left-pad to length n. -/
def padStart (c : Char) (n : Nat) (cs : List Char) : List Char :=
  List.replicate (n - cs.length) c ++ cs

/-- Decimal digits of a natural number (fuel-based so the kernel can
evaluate it); models Number.prototype.toString() for naturals. -/
def natToCharsAux : Nat → Nat → List Char
  | 0, _ => []
  | fuel + 1, n =>
    if n < 10 then [Nat.digitChar n]
    else natToCharsAux fuel (n / 10) ++ [Nat.digitChar (n % 10)]

/-- Decimal string of a natural number. -/
def natToChars (n : Nat) : List Char := natToCharsAux (n + 1) n

/-- Decimal string of an integer; models Number.prototype.toString() for
integer-valued JS numbers. -/
def intToChars (i : Int) : List Char :=
  if i < 0 then '-' :: natToChars i.natAbs else natToChars i.toNat

/-- Model of JS Math.floor on an exact rational. -/
def jsFloor (q : ℚ) : ℤ := ⌊q⌋

/-- Model of JS Math.round (round half toward positive infinity). -/
def jsRound (q : ℚ) : ℤ := ⌊q + 1/2⌋

/-- Truncation toward zero, as JS division-based remainders need. -/
def jsTrunc (q : ℚ) : ℤ := if q < 0 then -⌊-q⌋ else ⌊q⌋

/-- Model of the JS % operator on numbers (sign follows the dividend). -/
def jsMod (a b : ℚ) : ℚ := a - b * (jsTrunc (a / b) : ℚ)

/-! ### Data model (src/types.ts) -/

/-- CaptionLine from src/types.ts: one timed lyric segment. -/
structure CaptionLine where
  startTime : ℚ
  endTime : ℚ
  text : List Char
  emoji : Option (List Char)
deriving DecidableEq

/-- ThemeConfig from src/types.ts: style attributes of one theme. -/
structure ThemeConfig where
  textColor : List Char
  fontWeight : List Char
  backgroundStyle : List Char
  solidBackgroundColor : List Char
  fontFamily : List Char
  textAlign : List Char
  fontSize : ℚ
  fontStyle : List Char
  glowEnabled : Bool
  glowColor : List Char
  strokeEnabled : Bool
  strokeColor : List Char
  strokeWidth : ℚ
  gradientEnabled : Bool
  gradientColor1 : List Char
  gradientColor2 : List Char
deriving DecidableEq

/-- EditorState from src/types.ts: the document root snapshotted by
history. App.tsx uses a continuous percentage captionPosition. -/
structure EditorState where
  captions : Option (List CaptionLine)
  theme : List Char
  themeConfigs : List (List Char × ThemeConfig)
  backgroundImage : Option (List Char)
  captionPosition : ℚ × ℚ
  aspectRatio : List Char
deriving DecidableEq

/-- A JS object of type Partial EditorState: each field optionally
present, as passed to setState in App.tsx. -/
structure StatePatch where
  captions : Option (Option (List CaptionLine)) := none
  theme : Option (List Char) := none
  themeConfigs : Option (List (List Char × ThemeConfig)) := none
  backgroundImage : Option (Option (List Char)) := none
  captionPosition : Option (ℚ × ℚ) := none
  aspectRatio : Option (List Char) := none
deriving DecidableEq

/-- The JS spread merge of App.tsx line 56: the fields present in the
patch overwrite those of the state. -/
def mergeState (s : EditorState) (p : StatePatch) : EditorState where
  captions := p.captions.getD s.captions
  theme := p.theme.getD s.theme
  themeConfigs := p.themeConfigs.getD s.themeConfigs
  backgroundImage := p.backgroundImage.getD s.backgroundImage
  captionPosition := p.captionPosition.getD s.captionPosition
  aspectRatio := p.aspectRatio.getD s.aspectRatio

/-- The undo/redo history of App.tsx lines 41-49. -/
structure History where
  past : List EditorState
  present : EditorState
  future : List EditorState
deriving DecidableEq

/-! ### History operations (src/App.tsx) -/

/-- setState of App.tsx lines 54-70: overwrite=true replaces present in
place (coalesced commit); otherwise push present onto past and clear
future (discrete commit). -/
def setState (h : History) (p : StatePatch) (overwrite : Bool) : History :=
  let newPresent := mergeState h.present p
  if overwrite then
    { past := h.past, present := newPresent, future := h.future }
  else
    { past := h.past ++ [h.present], present := newPresent, future := [] }

/-- handleUndo of App.tsx lines 75-86: no-op on empty past, else pop the
last past state into present and push the old present onto future. -/
def handleUndo (h : History) : History :=
  if h.past.length = 0 then h
  else
    match h.past.getLast? with
    | none => h
    | some p =>
      { past := h.past.dropLast
        present := p
        future := h.present :: h.future }

/-- handleRedo of App.tsx lines 88-99: no-op on empty future, else shift
the first future state into present and push the old present onto past. -/
def handleRedo (h : History) : History :=
  if h.future.length = 0 then h
  else
    match h.future with
    | [] => h
    | f :: rest =>
      { past := h.past ++ [h.present]
        present := f
        future := rest }

/-- List map with the element index, from a start index: models the JS
Array.prototype.map callback receiving (element, index). -/
def jsMapIdxFrom (f : Nat → α → α) : Nat → List α → List α
  | _, [] => []
  | k, a :: as => f k a :: jsMapIdxFrom f (k + 1) as

/-- handleUpdateCaptionTime of App.tsx lines 111-117: replace the
start/end times of the caption at the given index and commit coalesced;
no-op when captions is null. -/
def handleUpdateCaptionTime (h : History) (index : Nat)
    (newStartTime newEndTime : ℚ) : History :=
  match h.present.captions with
  | none => h
  | some caps =>
    let newCaptions := jsMapIdxFrom
      (fun i c => if i = index then
          { c with startTime := newStartTime, endTime := newEndTime }
        else c) 0 caps
    setState h { captions := some (some newCaptions) } true

/-! ### Active caption selection (src/App.tsx line 165, src/components/Timeline.tsx line 34) -/

/-- The predicate of the find callback: currentTime is inside the
caption's interval, boundaries inclusive. -/
def captionActive (t : ℚ) (c : CaptionLine) : Bool :=
  decide (c.startTime ≤ t) && decide (t ≤ c.endTime)

/-- currentCaption of App.tsx lines 163-166 (identical to activeCaption
of Timeline.tsx lines 32-35): the first caption whose interval contains
the current time, or none. -/
def currentCaption (captions : Option (List CaptionLine)) (t : ℚ) :
    Option CaptionLine :=
  match captions with
  | none => none
  | some caps => caps.find? (captionActive t)

/-! ### Interval drag engine (src/components/Timeline.tsx lines 65-105) -/

/-- The minimum caption duration of Timeline.tsx line 76. -/
def minDuration : ℚ := 0.2

/-- The type drag branch of handleMouseMove (Timeline.tsx lines 78-86):
shift the interval by deltaTime, clamp into the timeline. Returns
(newStartTime, newEndTime). -/
def dragMove (initialStartTime initialEndTime deltaTime duration : ℚ) :
    ℚ × ℚ :=
  let dragStartTime := initialStartTime + deltaTime
  let captionDuration := initialEndTime - initialStartTime
  let newStartTime := max 0 dragStartTime
  let newEndTime := newStartTime + captionDuration
  if newEndTime > duration then (duration - captionDuration, duration)
  else (newStartTime, newEndTime)

/-- The resize-start branch of handleMouseMove (Timeline.tsx lines
87-93): move the start edge, capped at minDuration before the end, then
floored at 0; the end is unchanged. -/
def resizeStart (initialStartTime initialEndTime deltaTime : ℚ) : ℚ × ℚ :=
  let moved := initialStartTime + deltaTime
  let capped := if moved > initialEndTime - minDuration then
      initialEndTime - minDuration
    else moved
  (max 0 capped, initialEndTime)

/-- The resize-end branch of handleMouseMove (Timeline.tsx lines
94-101): move the end edge, floored at minDuration after the start, then
capped at the timeline duration; the start is unchanged. -/
def resizeEnd (initialStartTime initialEndTime deltaTime duration : ℚ) :
    ℚ × ℚ :=
  let moved := initialEndTime + deltaTime
  let floored := if moved < initialStartTime + minDuration then
      initialStartTime + minDuration
    else moved
  (initialStartTime, min duration floored)

/-! ### Frame compositor line splitting (src/App.tsx lines 365-380) -/

/-- First index of a space in the list, if any. -/
def firstSpaceIdx : List Char → Option Nat
  | [] => none
  | c :: rest =>
    if c = ' ' then some 0 else (firstSpaceIdx rest).map (· + 1)

/-- Model of JS text.indexOf(' ', pos): the least index of a space at or
after pos, or -1. -/
def jsIndexOfSpaceFrom (cs : List Char) (pos : Nat) : Int :=
  match (firstSpaceIdx (cs.drop pos)).map (· + pos) with
  | none => -1
  | some i => i

/-- Greatest index of a space at or before pos, if any. -/
def lastSpaceLE (cs : List Char) : Nat → Option Nat
  | 0 => if cs.get? 0 = some ' ' then some 0 else none
  | n + 1 =>
    if cs.get? (n + 1) = some ' ' then some (n + 1) else lastSpaceLE cs n

/-- Model of JS text.lastIndexOf(' ', pos): the greatest index of a
space at or before pos, or -1. -/
def jsLastIndexOfSpace (cs : List Char) (pos : Nat) : Int :=
  match lastSpaceLE cs pos with
  | none => -1
  | some i => i

/-- The line-splitting step of drawFrame, App.tsx lines 365-380: with
maxLines = 2, a text longer than 20 characters containing a space is
split at the space nearest to floor(length/2), into two trimmed lines;
otherwise the text stays one line. -/
def computeLines (maxLines : Nat) (text : List Char) : List (List Char) :=
  if maxLines = 2 ∧ text.length > 20 ∧ ' ' ∈ text then
    let mid : Nat := text.length / 2
    let before : Int := jsLastIndexOfSpace text mid
    let after : Int := jsIndexOfSpaceFrom text mid
    let splitPos0 : Int :=
      if (mid : Int) - before < after - (mid : Int) then before else after
    let splitPos : Int :=
      if splitPos0 = -1 then (if before ≠ -1 then before else after)
      else splitPos0
    if splitPos ≠ -1 then
      [trimChars (text.take splitPos.toNat),
       trimChars (text.drop splitPos.toNat)]
    else [text]
  else [text]

/-! ### Timestamp utilities (src/services/geminiService.ts lines 5-12,
src/components/ExportModal.tsx lines 14-20) -/

/-- Model of JS String.prototype.split(sep) for a single character
separator. -/
def splitOnChar (sep : Char) : List Char → List (List Char)
  | [] => [[]]
  | c :: rest =>
    match splitOnChar sep rest with
    | [] => if c = sep then [[], []] else [[c]]
    | p :: ps => if c = sep then [] :: p :: ps else (c :: p) :: ps

/-- Longest digit head of the list, with the rest. -/
def takeDigits : List Char → List Char × List Char
  | [] => ([], [])
  | c :: rest =>
    if c.isDigit then
      let (d, r) := takeDigits rest
      (c :: d, r)
    else ([], c :: rest)

/-- Numeric value of a digit string. -/
def digitsToNat (ds : List Char) : Nat :=
  ds.foldl (fun acc c => acc * 10 + (c.toNat - 48)) 0

/-- Model of JS parseFloat on inputs without exponent notation: optional
whitespace and sign, then digits with an optional fractional part; none
models NaN. -/
def jsParseFloat (cs : List Char) : Option ℚ :=
  let cs1 := cs.dropWhile isJsWhitespace
  let (neg, cs2) : Bool × List Char :=
    match cs1 with
    | '-' :: rest => (true, rest)
    | '+' :: rest => (false, rest)
    | rest => (false, rest)
  let (intPart, cs3) := takeDigits cs2
  let fracPart : List Char :=
    match cs3 with
    | '.' :: rest => (takeDigits rest).1
    | _ => []
  if intPart = [] ∧ fracPart = [] then none
  else
    let mag : ℚ := (digitsToNat intPart : ℚ) +
      (digitsToNat fracPart : ℚ) / ((10 : ℚ) ^ fracPart.length)
    some (if neg then -mag else mag)

/-- Model of JS parseInt(s, 10): optional whitespace and sign, then the
longest digit head; none models NaN. -/
def jsParseInt (cs : List Char) : Option ℤ :=
  let cs1 := cs.dropWhile isJsWhitespace
  let (neg, cs2) : Bool × List Char :=
    match cs1 with
    | '-' :: rest => (true, rest)
    | '+' :: rest => (false, rest)
    | rest => (false, rest)
  let (intPart, _) := takeDigits cs2
  if intPart = [] then none
  else some (if neg then -(digitsToNat intPart : ℤ) else (digitsToNat intPart : ℤ))

/-- parseTimestamp of geminiService.ts lines 5-12: empty input gives 0;
without a colon the whole string is parsed as seconds, defaulting to 0;
otherwise minutes * 60 + seconds from the first two parts. The none
result models the NaN produced when a colon is present but a part does
not parse. -/
def parseTimestamp (time : List Char) : Option ℚ :=
  if time = [] then some 0
  else
    match splitOnChar ':' time with
    | [] => some 0
    | [p0] => some ((jsParseFloat p0).getD 0)
    | p0 :: p1 :: _ =>
      match jsParseInt p0, jsParseFloat p1 with
      | some m, some s => some ((m : ℚ) * 60 + s)
      | _, _ => none

/-- formatSrtTimestamp of ExportModal.tsx lines 14-20 (src/unnamed/
part_000): hours, minutes, seconds zero-padded to two digits and the
rounded milliseconds zero-padded to three, joined as HH:MM:SS,mmm. -/
def formatSrtTimestamp (seconds : ℚ) : List Char :=
  let h := padStart '0' 2 (intToChars (jsFloor (seconds / 3600)))
  let m := padStart '0' 2 (intToChars (jsFloor (jsMod seconds 3600 / 60)))
  let s := padStart '0' 2 (intToChars (jsFloor (jsMod seconds 60)))
  let ms := padStart '0' 3
    (intToChars (jsRound ((seconds - (jsFloor seconds : ℚ)) * 1000)))
  h ++ ':' :: m ++ ':' :: s ++ ',' :: ms

/-! ### History lemmas -/

/-- Unfolding of handleUndo on a non-empty past. -/
lemma handleUndo_eq (h : History) (hne : h.past ≠ []) :
    handleUndo h =
      ⟨h.past.dropLast, h.past.getLast hne, h.present :: h.future⟩ := by
  unfold handleUndo
  have hl : ¬ h.past.length = 0 := by
    simp [List.length_eq_zero, hne]
  rw [if_neg hl, List.getLast?_eq_getLast h.past hne]

/-- Unfolding of handleRedo on a non-empty future. -/
lemma handleRedo_eq (h : History) (f : EditorState)
    (rest : List EditorState) (hf : h.future = f :: rest) :
    handleRedo h = ⟨h.past ++ [h.present], f, rest⟩ := by
  unfold handleRedo
  rw [hf]
  simp

/-- Claim C1: undo after a non-coalesced commit restores the prior
present, redo after that undo restores the committed state, undo on a
non-empty past followed by redo is the identity on the whole history,
and undo (redo) is a no-op on an empty past (future). -/
theorem undo_redo_round_trip (h : History) (p : StatePatch) :
    (h.past ≠ [] → handleRedo (handleUndo h) = h) ∧
    (handleUndo (setState h p false)).present = h.present ∧
    (handleRedo (handleUndo (setState h p false))).present =
      (setState h p false).present ∧
    (h.past = [] → handleUndo h = h) ∧
    (h.future = [] → handleRedo h = h) := by
  obtain ⟨past, present, future⟩ := h
  refine ⟨?_, ?_, ?_, ?_, ?_⟩
  · intro hne
    rw [handleUndo_eq _ hne, handleRedo_eq _ _ _ rfl]
    simp only [List.dropLast_append_getLast]
  · have hne : (past ++ [present]) ≠ [] := by simp
    show (handleUndo ⟨past ++ [present], mergeState present p, []⟩).present
      = present
    rw [handleUndo_eq _ hne]
    simp [List.getLast_append (l := past)]
  · have hne : (past ++ [present]) ≠ [] := by simp
    show (handleRedo (handleUndo
      ⟨past ++ [present], mergeState present p, []⟩)).present
      = (setState ⟨past, present, future⟩ p false).present
    rw [handleUndo_eq _ hne, handleRedo_eq _ _ _ rfl]
    rfl
  · intro hpe
    simp only [] at hpe
    subst hpe
    simp [handleUndo]
  · intro hfe
    simp only [] at hfe
    subst hfe
    simp [handleRedo]

/-- Example editor states for concrete witnesses. -/
def esA : EditorState := ⟨none, [], [], none, (0, 0), []⟩

/-- A second example editor state, distinct from esA. -/
def esB : EditorState := ⟨none, ['x'], [], none, (1, 2), []⟩

/-- Witness for claim C1 at a concrete history. -/
theorem undo_redo_round_trip_witness :
    handleRedo (handleUndo (⟨[esA], esB, [esA]⟩ : History)) =
      (⟨[esA], esB, [esA]⟩ : History) ∧
    (handleUndo (setState ⟨[esA], esB, [esA]⟩ {} false)).present = esB ∧
    handleUndo (⟨[], esB, []⟩ : History) = ⟨[], esB, []⟩ ∧
    handleRedo (⟨[], esB, []⟩ : History) = ⟨[], esB, []⟩ := by
  refine ⟨(undo_redo_round_trip ⟨[esA], esB, [esA]⟩ {}).1 (by decide),
    (undo_redo_round_trip ⟨[esA], esB, [esA]⟩ {}).2.1,
    (undo_redo_round_trip ⟨[], esB, []⟩ {}).2.2.2.1 rfl,
    (undo_redo_round_trip ⟨[], esB, []⟩ {}).2.2.2.2 rfl⟩

/-! ### Coalesced versus discrete commits -/

/-- Composing two indexed maps composes the functions pointwise. -/
lemma jsMapIdxFrom_comp (f g : Nat → α → α) (k : Nat) (l : List α) :
    jsMapIdxFrom f k (jsMapIdxFrom g k l) =
      jsMapIdxFrom (fun i a => f i (g i a)) k l := by
  induction l generalizing k with
  | nil => rfl
  | cons a as ih => simp [jsMapIdxFrom, ih]

/-- Pointwise equal functions give equal indexed maps. -/
lemma jsMapIdxFrom_congr (f g : Nat → α → α) (k : Nat) (l : List α)
    (hfg : ∀ i a, f i a = g i a) :
    jsMapIdxFrom f k l = jsMapIdxFrom g k l := by
  induction l generalizing k with
  | nil => rfl
  | cons a as ih => simp [jsMapIdxFrom, ih, hfg]

/-- Unfolding of handleUpdateCaptionTime when captions are absent. -/
lemma handleUpdateCaptionTime_none (h : History)
    (hc : h.present.captions = none) (i : Nat) (s e : ℚ) :
    handleUpdateCaptionTime h i s e = h := by
  unfold handleUpdateCaptionTime
  rw [hc]

/-- Unfolding of handleUpdateCaptionTime when captions are present. -/
lemma handleUpdateCaptionTime_some (h : History) (caps : List CaptionLine)
    (hc : h.present.captions = some caps) (i : Nat) (s e : ℚ) :
    handleUpdateCaptionTime h i s e =
      ⟨h.past,
       { h.present with captions := some (jsMapIdxFrom
          (fun j c => if j = i then
              { c with startTime := s, endTime := e }
            else c) 0 caps) },
       h.future⟩ := by
  unfold handleUpdateCaptionTime
  rw [hc]
  rfl

/-- Claim C2: a non-coalesced setState pushes the present onto past and
clears future; a coalesced setState leaves past and future untouched (so
past.length never grows), and a second coalesced retime at the same
index fully overrides the first rather than merging with it. -/
theorem commit_kinds (h : History) (p : StatePatch) (i : Nat)
    (s1 e1 s2 e2 : ℚ) :
    (setState h p false).past = h.past ++ [h.present] ∧
    (setState h p false).future = [] ∧
    (setState h p true).past = h.past ∧
    (setState h p true).future = h.future ∧
    (setState h p true).past.length = h.past.length ∧
    handleUpdateCaptionTime (handleUpdateCaptionTime h i s1 e1) i s2 e2 =
      handleUpdateCaptionTime h i s2 e2 := by
  refine ⟨rfl, rfl, rfl, rfl, rfl, ?_⟩
  cases hc : h.present.captions with
  | none =>
    rw [handleUpdateCaptionTime_none h hc i s1 e1]
  | some caps =>
    have hco : jsMapIdxFrom
        (fun j c => if j = i then
            { c with startTime := s2, endTime := e2 }
          else c) 0 (jsMapIdxFrom
        (fun j c => if j = i then
            { c with startTime := s1, endTime := e1 }
          else c) 0 caps) = jsMapIdxFrom
        (fun j c => if j = i then
            { c with startTime := s2, endTime := e2 }
          else c) 0 caps := by
      rw [jsMapIdxFrom_comp]
      refine jsMapIdxFrom_congr _ _ 0 caps ?_
      intro j a
      by_cases hji : j = i <;> simp [hji]
    rw [handleUpdateCaptionTime_some h caps hc i s1 e1,
      handleUpdateCaptionTime_some _ _ rfl i s2 e2,
      handleUpdateCaptionTime_some h caps hc i s2 e2, hco]

/-! ### Drag engine claims -/

/-- Counterexample to claim C3's concrete case: moving the interval
with deltaTime = 10 in a 20-second timeline gives (12, 15); no clamping
occurs, so the claimed result (17, 20) is wrong. -/
theorem drag_move_example_refuted :
    dragMove 2 5 10 20 = (12, 15) ∧ ¬ dragMove 2 5 10 20 = (17, 20) := by
  constructor
  · norm_num [dragMove]
  · norm_num [dragMove]

/-- Claim C3 as amended: dragging preserves the duration exactly and
clamps into [0, duration]; without clamping both endpoints shift by
deltaTime; the interval [2,5] moved by 10 in a 20-second timeline gives
(12, 15), and clamping to (17, 20) happens for deltaTime = 16. -/
theorem drag_move_clamps (s e d D : ℚ) (hD : e - s ≤ D) :
    (dragMove s e d D).2 - (dragMove s e d D).1 = e - s ∧
    0 ≤ (dragMove s e d D).1 ∧
    (dragMove s e d D).2 ≤ D ∧
    (0 ≤ s + d → e + d ≤ D → dragMove s e d D = (s + d, e + d)) ∧
    dragMove 2 5 10 20 = (12, 15) ∧
    dragMove 2 5 16 20 = (17, 20) := by
  refine ⟨?_, ?_, ?_, ?_, by norm_num [dragMove], by norm_num [dragMove]⟩
  · simp only [dragMove]
    split_ifs with hcl <;> simp
  · simp only [dragMove]
    split_ifs with hcl <;> simp
    · linarith
  · simp only [dragMove]
    split_ifs with hcl <;> simp
    linarith
  · intro h1 h2
    simp only [dragMove]
    rw [max_eq_right h1, if_neg (by linarith)]
    have he : s + d + (e - s) = e + d := by ring
    rw [he]

/-- Witness for claim C3 (amended) at the interval [2,5] in a
20-second timeline. -/
theorem drag_move_clamps_witness :
    dragMove 2 5 10 20 = (12, 15) ∧ dragMove 2 5 16 20 = (17, 20) :=
  ⟨(drag_move_clamps 2 5 10 20 (by norm_num)).2.2.2.2.1,
   (drag_move_clamps 2 5 16 20 (by norm_num)).2.2.2.2.2⟩

/-- Counterexample to claim C4's separation statement: resizing the
start of the caption [0, 0.1] leaves the gap to the end at 0.1, within
minDuration = 0.2, because the cap initialEnd - minDuration is negative
and the floor at 0 wins. -/
theorem resize_start_within_min :
    (resizeStart 0 0.1 0).2 - (resizeStart 0 0.1 0).1 < minDuration ∧
    resizeStart 0 0.1 0 = (0, 0.1) := by
  constructor
  · norm_num [resizeStart, minDuration]
  · norm_num [resizeStart, minDuration]

/-- Claim C4 as amended: the new start is
clamp(initialStart + deltaTime, 0, initialEnd - minDuration) and the end
is unchanged; whenever initialEnd is at least minDuration the new start
stays at least minDuration before the end; for [2,5] with deltaTime = 10
the result is 4.8, not 12. -/
theorem resize_start_clamped (s e d : ℚ) :
    (resizeStart s e d).1 = max 0 (min (s + d) (e - minDuration)) ∧
    (resizeStart s e d).2 = e ∧
    (minDuration ≤ e →
      minDuration ≤ (resizeStart s e d).2 - (resizeStart s e d).1) ∧
    resizeStart 2 5 10 = (4.8, 5) := by
  refine ⟨?_, rfl, ?_, by norm_num [resizeStart, minDuration]⟩
  · simp only [resizeStart]
    rcases le_or_lt (s + d) (e - minDuration) with hle | hlt
    · rw [if_neg (by linarith), min_eq_left hle]
    · rw [if_pos (by linarith), min_eq_right (by linarith)]
  · intro he
    simp only [resizeStart]
    have h1 : (if s + d > e - minDuration then e - minDuration
        else s + d) ≤ e - minDuration := by
      split_ifs with hgt <;> linarith
    have h2 : max 0 (if s + d > e - minDuration then e - minDuration
        else s + d) ≤ e - minDuration := max_le (by linarith) h1
    linarith

/-- Witness for claim C4 (amended) at the interval [2,5] with
deltaTime = 10. -/
theorem resize_start_clamped_witness :
    resizeStart 2 5 10 = (4.8, 5) ∧
    minDuration ≤ (resizeStart 2 5 10).2 - (resizeStart 2 5 10).1 :=
  ⟨(resize_start_clamped 2 5 10).2.2.2,
   (resize_start_clamped 2 5 10).2.2.1 (by norm_num [minDuration])⟩

/-! ### Active caption selection claims -/

/-- find? returns exactly the first element satisfying the predicate. -/
lemma find?_first_iff (p : α → Bool) (l : List α) (a : α) :
    l.find? p = some a ↔
      ∃ i, l.get? i = some a ∧ p a = true ∧
        ∀ j, j < i → ∀ b, l.get? j = some b → p b = false := by
  induction l with
  | nil => simp
  | cons x xs ih =>
    by_cases hx : p x
    · rw [List.find?_cons_of_pos _ hx]
      constructor
      · intro h
        injection h with h
        subst h
        exact ⟨0, rfl, hx, fun j hj b hb => absurd hj (Nat.not_lt_zero j)⟩
      · rintro ⟨i, hi, hpa, hmin⟩
        cases i with
        | zero =>
          rw [List.get?_cons_zero] at hi
          exact hi
        | succ n =>
          have h0 := hmin 0 (Nat.succ_pos n) x rfl
          rw [hx] at h0
          cases h0
    · rw [List.find?_cons_of_neg _ hx, ih]
      constructor
      · rintro ⟨i, hi, hpa, hmin⟩
        refine ⟨i + 1, by simpa using hi, hpa, ?_⟩
        intro j hj b hb
        cases j with
        | zero =>
          rw [List.get?_cons_zero] at hb
          injection hb with hb
          subst hb
          exact Bool.eq_false_iff.mpr hx
        | succ m =>
          rw [List.get?_cons_succ] at hb
          exact hmin m (Nat.lt_of_succ_lt_succ hj) b hb
      · rintro ⟨i, hi, hpa, hmin⟩
        cases i with
        | zero =>
          rw [List.get?_cons_zero] at hi
          injection hi with hi
          subst hi
          rw [hpa] at hx
          cases hx rfl
        | succ n =>
          rw [List.get?_cons_succ] at hi
          refine ⟨n, hi, hpa, ?_⟩
          intro j hj b hb
          exact hmin (j + 1) (Nat.succ_lt_succ hj) b
            (by simpa using hb)

/-- The find callback holds exactly on captions whose closed interval
contains the time. -/
lemma captionActive_iff (t : ℚ) (c : CaptionLine) :
    captionActive t c = true ↔ c.startTime ≤ t ∧ t ≤ c.endTime := by
  simp [captionActive]

/-- Caption [0,3] labelled A, for the boundary example. -/
def capA : CaptionLine := ⟨0, 3, ['A'], none⟩

/-- Caption [3,6] labelled B: its start equals the end of capA. -/
def capB : CaptionLine := ⟨3, 6, ['B'], none⟩

/-- Caption [0,4] labelled C, for the overlap example. -/
def capC : CaptionLine := ⟨0, 4, ['C'], none⟩

/-- Caption [1,5] labelled D: it overlaps capC. -/
def capD : CaptionLine := ⟨1, 5, ['D'], none⟩

/-- Claim C6: the displayed caption is the first list entry whose closed
interval [startTime, endTime] contains the time, nothing is displayed
when no entry matches or the list is absent, and at a shared boundary
(time 3 on capA = [0,3], capB = [3,6]) or under overlap (time 2 on
capC = [0,4], capD = [1,5]) the first entry in list order wins. -/
theorem active_caption_first_match (t : ℚ) (cs : List CaptionLine)
    (c : CaptionLine) :
    currentCaption none t = none ∧
    (currentCaption (some cs) t = none ↔
      ∀ d ∈ cs, ¬(d.startTime ≤ t ∧ t ≤ d.endTime)) ∧
    (currentCaption (some cs) t = some c ↔
      ∃ i, cs.get? i = some c ∧ (c.startTime ≤ t ∧ t ≤ c.endTime) ∧
        ∀ j, j < i → ∀ d, cs.get? j = some d →
          ¬(d.startTime ≤ t ∧ t ≤ d.endTime)) ∧
    currentCaption (some [capA, capB]) 3 = some capA ∧
    currentCaption (some [capC, capD]) 2 = some capC := by
  refine ⟨rfl, ?_, ?_, by decide, by decide⟩
  · show List.find? (captionActive t) cs = none ↔ _
    rw [List.find?_eq_none]
    constructor
    · intro h d hd
      have := h d hd
      rw [captionActive_iff] at this
      exact fun hc => this hc
    · intro h d hd
      rw [captionActive_iff t d]
      exact h d hd
  · show List.find? (captionActive t) cs = some c ↔ _
    rw [find?_first_iff]
    constructor
    · rintro ⟨i, hi, hpa, hmin⟩
      refine ⟨i, hi, (captionActive_iff t c).mp hpa, ?_⟩
      intro j hj d hd
      have := hmin j hj d hd
      rw [← captionActive_iff t d]
      simp [this]
    · rintro ⟨i, hi, hpa, hmin⟩
      refine ⟨i, hi, (captionActive_iff t c).mpr hpa, ?_⟩
      intro j hj d hd
      have := hmin j hj d hd
      rw [← Bool.not_eq_true, captionActive_iff]
      exact this

/-- Witness for claim C6: the first-match characterization applied at
the shared boundary time 3 of capA and capB. -/
theorem active_caption_first_match_witness :
    currentCaption (some [capA, capB]) 3 = some capA :=
  (active_caption_first_match 3 [capA, capB] capA).2.2.1.mpr
    ⟨0, rfl, by norm_num [capA],
      fun j hj d hd => absurd hj (Nat.not_lt_zero j)⟩

/-! ### parseTimestamp claims -/

/-- splitOnChar never returns an empty list of parts. -/
lemma splitOnChar_ne_nil (sep : Char) (cs : List Char) :
    splitOnChar sep cs ≠ [] := by
  cases cs with
  | nil => simp [splitOnChar]
  | cons c rest =>
    simp only [splitOnChar]
    cases splitOnChar sep rest with
    | nil => split_ifs <;> simp
    | cons p ps => split_ifs <;> simp

/-- Splitting a string without the separator yields that one part. -/
lemma splitOnChar_of_not_mem (sep : Char) (cs : List Char)
    (h : sep ∉ cs) : splitOnChar sep cs = [cs] := by
  induction cs with
  | nil => rfl
  | cons c rest ih =>
    have hc : ¬ c = sep := fun hc => h (hc ▸ List.mem_cons_self c rest)
    have hr : sep ∉ rest := fun hr => h (List.mem_cons_of_mem c hr)
    simp only [splitOnChar, ih hr]
    rw [if_neg hc]

/-- Splitting a string containing the separator yields at least two
parts. -/
lemma splitOnChar_two_le (sep : Char) (cs : List Char) (h : sep ∈ cs) :
    2 ≤ (splitOnChar sep cs).length := by
  induction cs with
  | nil => cases h
  | cons c rest ih =>
    simp only [splitOnChar]
    rcases List.mem_cons.mp h with hc | hr
    · subst hc
      cases hns : splitOnChar sep rest with
      | nil => exact absurd hns (splitOnChar_ne_nil sep rest)
      | cons p ps => simp
    · have h2 := ih hr
      cases hns : splitOnChar sep rest with
      | nil => exact absurd hns (splitOnChar_ne_nil sep rest)
      | cons p ps =>
        rw [hns] at h2
        split_ifs <;> simp_all

/-- Unfolding of parseTimestamp when the split has two or more parts. -/
lemma parseTimestamp_colon (s p0 p1 : List Char) (ps : List (List Char))
    (hne : s ≠ []) (hs : splitOnChar ':' s = p0 :: p1 :: ps) :
    parseTimestamp s =
      match jsParseInt p0, jsParseFloat p1 with
      | some m, some sec => some ((m : ℚ) * 60 + sec)
      | _, _ => none := by
  unfold parseTimestamp
  rw [if_neg hne, hs]

/-- Claim C7: parseTimestamp returns 0 on empty input; without a colon
it parses the whole string as seconds, defaulting to 0 when unparsable;
with a colon it returns minutes * 60 + seconds from the first two parts.
In particular 1:02.5 gives 62.5 and 5 gives 5. -/
theorem parse_timestamp_spec (s : List Char) :
    parseTimestamp [] = some 0 ∧
    parseTimestamp ['1', ':', '0', '2', '.', '5'] = some (125/2) ∧
    parseTimestamp ['5'] = some 5 ∧
    (s ≠ [] → ':' ∉ s →
      parseTimestamp s = some ((jsParseFloat s).getD 0)) ∧
    (':' ∈ s → ∃ p0 p1 ps, splitOnChar ':' s = p0 :: p1 :: ps ∧
      ∀ m sec, jsParseInt p0 = some m → jsParseFloat p1 = some sec →
        parseTimestamp s = some ((m : ℚ) * 60 + sec)) := by
  refine ⟨rfl, ?_, ?_, ?_, ?_⟩
  · rw [parseTimestamp_colon ['1', ':', '0', '2', '.', '5']
      ['1'] ['0', '2', '.', '5'] [] (by decide) rfl]
    rw [show jsParseInt ['1'] = some 1 from rfl]
    rw [show jsParseFloat ['0', '2', '.', '5'] =
      some ((2 : ℚ) + (5 : ℚ) / 10 ^ (1 : ℕ)) from rfl]
    norm_num
  · unfold parseTimestamp
    rw [if_neg (by decide), show splitOnChar ':' ['5'] = [['5']] from rfl]
    show some ((jsParseFloat ['5']).getD 0) = some 5
    rw [show jsParseFloat ['5'] =
      some ((5 : ℚ) + (0 : ℚ) / 10 ^ (0 : ℕ)) from rfl]
    norm_num
  · intro hne hni
    unfold parseTimestamp
    rw [if_neg hne, splitOnChar_of_not_mem _ _ hni]
  · intro hmem
    have hne : s ≠ [] := by rintro rfl; cases hmem
    have h2 := splitOnChar_two_le ':' s hmem
    cases hs : splitOnChar ':' s with
    | nil => exact absurd hs (splitOnChar_ne_nil ':' s)
    | cons p0 ps0 =>
      cases ps0 with
      | nil => rw [hs] at h2; simp at h2
      | cons p1 ps =>
        refine ⟨p0, p1, ps, rfl, ?_⟩
        intro m sec hm hsec
        rw [parseTimestamp_colon s p0 p1 ps hne hs, hm, hsec]

/-- Witness for claim C7: the no-colon clause applied at the concrete
input 7, and the colon membership hypothesis at 1:02.5. -/
theorem parse_timestamp_spec_witness :
    parseTimestamp ['7'] = some ((jsParseFloat ['7']).getD 0) ∧
    ':' ∈ ['1', ':', '0', '2', '.', '5'] := by
  refine ⟨(parse_timestamp_spec ['7']).2.2.2.1 (by decide) (by decide),
    by decide⟩

/-! ### Retime frame conditions -/

/-- Indexed map looks up pointwise. -/
lemma jsMapIdxFrom_get? (f : Nat → α → α) (k j : Nat) (l : List α) :
    (jsMapIdxFrom f k l).get? j = (l.get? j).map (f (k + j)) := by
  induction l generalizing k j with
  | nil => simp [jsMapIdxFrom]
  | cons a as ih =>
    cases j with
    | zero => simp [jsMapIdxFrom]
    | succ m =>
      simp only [jsMapIdxFrom, List.get?_cons_succ, ih (k + 1) m]
      have hkm : k + 1 + m = k + (m + 1) := by omega
      rw [hkm]

/-- Indexed map preserves length. -/
lemma jsMapIdxFrom_length (f : Nat → α → α) (k : Nat) (l : List α) :
    (jsMapIdxFrom f k l).length = l.length := by
  induction l generalizing k with
  | nil => rfl
  | cons a as ih => simp [jsMapIdxFrom, ih]

/-- Claim C9: the coalesced retime changes only the two times of the
caption at the given index; every other caption, that caption's text and
emoji, the list length, all other editor-state fields and the history
stacks are untouched, and a null caption list makes it a no-op. -/
theorem retime_frame (h : History) (i : Nat) (ns ne : ℚ)
    (caps : List CaptionLine) (hc : h.present.captions = some caps)
    (_hi : i < caps.length) :
    (∃ caps2,
      (handleUpdateCaptionTime h i ns ne).present.captions = some caps2 ∧
      caps2.length = caps.length ∧
      (∀ j, j ≠ i → caps2.get? j = caps.get? j) ∧
      (∀ c, caps.get? i = some c →
        caps2.get? i = some { c with startTime := ns, endTime := ne })) ∧
    (handleUpdateCaptionTime h i ns ne).past = h.past ∧
    (handleUpdateCaptionTime h i ns ne).future = h.future ∧
    (handleUpdateCaptionTime h i ns ne).present.theme = h.present.theme ∧
    (handleUpdateCaptionTime h i ns ne).present.themeConfigs =
      h.present.themeConfigs ∧
    (handleUpdateCaptionTime h i ns ne).present.backgroundImage =
      h.present.backgroundImage ∧
    (handleUpdateCaptionTime h i ns ne).present.captionPosition =
      h.present.captionPosition ∧
    (handleUpdateCaptionTime h i ns ne).present.aspectRatio =
      h.present.aspectRatio ∧
    (∀ g : History, g.present.captions = none →
      handleUpdateCaptionTime g i ns ne = g) := by
  rw [handleUpdateCaptionTime_some h caps hc i ns ne]
  refine ⟨⟨jsMapIdxFrom
      (fun j c => if j = i then
          { c with startTime := ns, endTime := ne }
        else c) 0 caps, rfl, jsMapIdxFrom_length _ 0 caps, ?_, ?_⟩,
    rfl, rfl, rfl, rfl, rfl, rfl, rfl,
    fun g hg => handleUpdateCaptionTime_none g hg i ns ne⟩
  · intro j hj
    rw [jsMapIdxFrom_get?]
    cases caps.get? j with
    | none => rfl
    | some c => simp [hj]
  · intro c hci
    rw [jsMapIdxFrom_get?, hci]
    simp

/-- An editor state holding the two example captions, for witnesses. -/
def esC : EditorState := ⟨some [capA, capB], [], [], none, (0, 0), []⟩

/-- Witness for claim C9: retiming caption 0 of a concrete two-caption
document keeps the stacks and the theme. -/
theorem retime_frame_witness :
    (handleUpdateCaptionTime ⟨[], esC, []⟩ 0 1 2).past = [] ∧
    (handleUpdateCaptionTime ⟨[], esC, []⟩ 0 1 2).present.theme =
      esC.theme :=
  ⟨(retime_frame ⟨[], esC, []⟩ 0 1 2 [capA, capB] rfl
      (by decide)).2.1,
   (retime_frame ⟨[], esC, []⟩ 0 1 2 [capA, capB] rfl
      (by decide)).2.2.2.1⟩

/-! ### formatSrtTimestamp claims -/

/-- Truncation agrees with floor on non-negative input. -/
lemma jsTrunc_eq_floor (a : ℚ) (ha : 0 ≤ a) : jsTrunc a = ⌊a⌋ := by
  unfold jsTrunc
  rw [if_neg (not_lt.mpr ha)]

/-- padStart pads to the maximum of target and current length. -/
lemma padStart_length (c : Char) (n : Nat) (cs : List Char) :
    (padStart c n cs).length = max n cs.length := by
  simp only [padStart, List.length_append, List.length_replicate]
  omega

/-- The digit string of a number below 10 ^ (k + 1) has at most k + 1
characters. -/
lemma natToCharsAux_length (fuel : Nat) :
    ∀ n k, n < fuel → n < 10 ^ (k + 1) →
      (natToCharsAux fuel n).length ≤ k + 1 := by
  induction fuel with
  | zero => intro n k hn _; omega
  | succ fuel ih =>
    intro n k hn hk
    unfold natToCharsAux
    split_ifs with h10
    · simp only [List.length_cons, List.length_nil]
      omega
    · cases k with
      | zero =>
        norm_num at hk
        omega
      | succ m =>
        have hdiv : n / 10 < fuel := by omega
        have hpow : n / 10 < 10 ^ (m + 1) := by
          rw [Nat.div_lt_iff_lt_mul (by norm_num)]
          calc n < 10 ^ (m + 1 + 1) := hk
          _ = 10 ^ (m + 1) * 10 := by ring
        have := ih (n / 10) m hdiv hpow
        simp only [List.length_append, List.length_cons,
          List.length_nil]
        omega

/-- The digit string of a number below 10 ^ (k + 1) has at most k + 1
characters. -/
lemma natToChars_length (n k : Nat) (h : n < 10 ^ (k + 1)) :
    (natToChars n).length ≤ k + 1 :=
  natToCharsAux_length (n + 1) n k (Nat.lt_succ_self n) h

/-- intToChars of a natural-number cast is natToChars. -/
lemma intToChars_natCast (m : ℕ) : intToChars (m : ℤ) = natToChars m := by
  unfold intToChars
  rw [if_neg (not_lt.mpr (Int.natCast_nonneg m))]
  rfl

/-- Math.floor of q / n equals the Nat division of the floors, for
non-negative q. -/
lemma jsFloor_div_nat (q : ℚ) (hq : 0 ≤ q) (n : ℕ) :
    jsFloor (q / (n : ℚ)) = ((⌊q⌋₊ / n : ℕ) : ℤ) := by
  unfold jsFloor
  have h1 : (0 : ℚ) ≤ q / n := by positivity
  rw [← Int.natCast_floor_eq_floor h1, Nat.floor_div_nat q n]

/-- The minutes field of the code equals floor-of-q-over-60 mod 60. -/
lemma jsFloor_minutes (q : ℚ) (hq : 0 ≤ q) :
    jsFloor (jsMod q 3600 / 60) = ((⌊q⌋₊ / 60 % 60 : ℕ) : ℤ) := by
  have h36 : (0 : ℚ) ≤ q / 3600 := by positivity
  have hval : jsMod q 3600 = q - 3600 * ((⌊q⌋₊ / 3600 : ℕ) : ℚ) := by
    unfold jsMod
    rw [jsTrunc_eq_floor _ h36]
    rw [show ⌊q / 3600⌋ = ((⌊q⌋₊ / 3600 : ℕ) : ℤ) from by
      rw [show ((3600 : ℚ)) = ((3600 : ℕ) : ℚ) from by norm_num] at h36 ⊢
      rw [← Int.natCast_floor_eq_floor h36, Nat.floor_div_nat q 3600]]
    norm_cast
  rw [hval]
  have hE : (q - 3600 * ((⌊q⌋₊ / 3600 : ℕ) : ℚ)) / 60 =
      q / 60 - ((60 * (⌊q⌋₊ / 3600) : ℕ) : ℚ) := by
    push_cast
    ring
  unfold jsFloor
  rw [hE, Int.floor_sub_nat]
  rw [show ⌊q / 60⌋ = ((⌊q⌋₊ / 60 : ℕ) : ℤ) from by
    have h60 : (0 : ℚ) ≤ q / 60 := by positivity
    rw [show ((60 : ℚ)) = ((60 : ℕ) : ℚ) from by norm_num] at h60 ⊢
    rw [← Int.natCast_floor_eq_floor h60, Nat.floor_div_nat q 60]]
  omega

/-- The seconds field of the code equals floor-of-q mod 60. -/
lemma jsFloor_seconds (q : ℚ) (hq : 0 ≤ q) :
    jsFloor (jsMod q 60) = ((⌊q⌋₊ % 60 : ℕ) : ℤ) := by
  have h60 : (0 : ℚ) ≤ q / 60 := by positivity
  have hval : jsMod q 60 = q - ((60 * (⌊q⌋₊ / 60) : ℕ) : ℚ) := by
    unfold jsMod
    rw [jsTrunc_eq_floor _ h60]
    rw [show ⌊q / 60⌋ = ((⌊q⌋₊ / 60 : ℕ) : ℤ) from by
      rw [show ((60 : ℚ)) = ((60 : ℕ) : ℚ) from by norm_num] at h60 ⊢
      rw [← Int.natCast_floor_eq_floor h60, Nat.floor_div_nat q 60]]
    norm_cast
  unfold jsFloor
  rw [hval, Int.floor_sub_nat]
  rw [← Int.natCast_floor_eq_floor hq]
  omega

/-- The hours field of the code equals floor-of-q divided by 3600. -/
lemma jsFloor_hours (q : ℚ) (hq : 0 ≤ q) :
    jsFloor (q / 3600) = ((⌊q⌋₊ / 3600 : ℕ) : ℤ) := by
  rw [show ((3600 : ℚ)) = ((3600 : ℕ) : ℚ) from by norm_num]
  exact jsFloor_div_nat q hq 3600

/-- The rounded milliseconds are between 0 and 1000 for non-negative
input. -/
lemma jsRound_frac_bounds (q : ℚ) :
    0 ≤ jsRound ((q - (jsFloor q : ℚ)) * 1000) ∧
    jsRound ((q - (jsFloor q : ℚ)) * 1000) ≤ 1000 := by
  unfold jsRound jsFloor
  have h1 : (⌊q⌋ : ℚ) ≤ q := Int.floor_le q
  have h2 : q < ⌊q⌋ + 1 := Int.lt_floor_add_one q
  constructor
  · apply Int.le_floor.mpr
    push_cast
    nlinarith
  · have : ⌊(q - (⌊q⌋ : ℚ)) * 1000 + 1/2⌋ < 1001 := by
      apply Int.floor_lt.mpr
      push_cast
      nlinarith
    omega

/-- The code output decomposed into its four padded fields, for
non-negative input. -/
lemma format_srt_decomp (q : ℚ) (hq : 0 ≤ q) :
    formatSrtTimestamp q =
      padStart '0' 2 (natToChars (⌊q⌋₊ / 3600)) ++ ':' ::
      padStart '0' 2 (natToChars (⌊q⌋₊ / 60 % 60)) ++ ':' ::
      padStart '0' 2 (natToChars (⌊q⌋₊ % 60)) ++ ',' ::
      padStart '0' 3 (intToChars (jsRound ((q - (jsFloor q : ℚ)) * 1000))) := by
  unfold formatSrtTimestamp
  rw [jsFloor_hours q hq, jsFloor_minutes q hq, jsFloor_seconds q hq,
    intToChars_natCast, intToChars_natCast, intToChars_natCast]

/-- Concrete evaluation: 3725.125 seconds formats as 01:02:05,125. -/
lemma fmt_3725 : formatSrtTimestamp (3725.125 : ℚ) = "01:02:05,125".toList := by
  have hq : (0 : ℚ) ≤ 3725.125 := by norm_num
  have hNf : ⌊(3725.125 : ℚ)⌋₊ = 3725 := by
    rw [Nat.floor_eq_iff (by norm_num)]
    norm_num
  have hIf : jsFloor (3725.125 : ℚ) = 3725 := by
    unfold jsFloor
    exact Int.floor_eq_iff.mpr (by norm_num)
  rw [format_srt_decomp _ hq, hNf, hIf]
  rw [show jsRound (((3725.125 : ℚ) - ((3725 : ℤ) : ℚ)) * 1000) = 125 from by
    unfold jsRound
    exact Int.floor_eq_iff.mpr (by norm_num)]
  decide

/-- Concrete evaluation: 0.9996 seconds formats with a four-character
milliseconds field. -/
lemma fmt_09996 :
    formatSrtTimestamp (0.9996 : ℚ) = "00:00:00,1000".toList := by
  have hq : (0 : ℚ) ≤ 0.9996 := by norm_num
  have hNf : ⌊(0.9996 : ℚ)⌋₊ = 0 := by
    rw [Nat.floor_eq_iff (by norm_num)]
    norm_num
  have hIf : jsFloor (0.9996 : ℚ) = 0 := by
    unfold jsFloor
    exact Int.floor_eq_iff.mpr (by norm_num)
  rw [format_srt_decomp _ hq, hNf, hIf]
  rw [show jsRound (((0.9996 : ℚ) - ((0 : ℤ) : ℚ)) * 1000) = 1000 from by
    unfold jsRound
    exact Int.floor_eq_iff.mpr (by norm_num)]
  decide

/-- Counterexample to claim C8 as stated: at 0.9996 seconds the rounded
milliseconds are 1000, the field has four characters and the whole
string has 13 characters instead of the 12 of the HH:MM:SS,mmm form. -/
theorem format_srt_three_digit_refuted :
    formatSrtTimestamp (0.9996 : ℚ) = "00:00:00,1000".toList ∧
    (formatSrtTimestamp (0.9996 : ℚ)).length = 13 := by
  rw [fmt_09996]
  exact ⟨rfl, by decide⟩

/-- Claim C8 as amended: for non-negative seconds whose fractional part
rounds below 1000 milliseconds, the output is hours, minutes and seconds
of the floored value zero-padded to two digits (minutes and seconds
fields exactly two characters, hours at least two) and the rounded
milliseconds zero-padded to exactly three digits; in particular
3725.125 gives 01:02:05,125. -/
theorem format_srt_fields (q : ℚ) (hq : 0 ≤ q)
    (hfr : q - (jsFloor q : ℚ) < 0.9995) :
    0 ≤ jsRound ((q - (jsFloor q : ℚ)) * 1000) ∧
    jsRound ((q - (jsFloor q : ℚ)) * 1000) ≤ 999 ∧
    formatSrtTimestamp q =
      padStart '0' 2 (natToChars (⌊q⌋₊ / 3600)) ++ ':' ::
      padStart '0' 2 (natToChars (⌊q⌋₊ / 60 % 60)) ++ ':' ::
      padStart '0' 2 (natToChars (⌊q⌋₊ % 60)) ++ ',' ::
      padStart '0' 3 (intToChars (jsRound ((q - (jsFloor q : ℚ)) * 1000))) ∧
    (padStart '0' 2 (natToChars (⌊q⌋₊ / 60 % 60))).length = 2 ∧
    (padStart '0' 2 (natToChars (⌊q⌋₊ % 60))).length = 2 ∧
    (padStart '0' 3 (intToChars
      (jsRound ((q - (jsFloor q : ℚ)) * 1000)))).length = 3 ∧
    2 ≤ (padStart '0' 2 (natToChars (⌊q⌋₊ / 3600))).length ∧
    formatSrtTimestamp (3725.125 : ℚ) = "01:02:05,125".toList := by
  have hms0 := (jsRound_frac_bounds q).1
  have hms999 : jsRound ((q - (jsFloor q : ℚ)) * 1000) ≤ 999 := by
    unfold jsFloor at hfr
    unfold jsRound jsFloor
    have : ⌊(q - (⌊q⌋ : ℚ)) * 1000 + 1/2⌋ < 1000 := by
      apply Int.floor_lt.mpr
      push_cast
      nlinarith
    omega
  have hmin : (padStart '0' 2 (natToChars (⌊q⌋₊ / 60 % 60))).length = 2 := by
    have hlt : ⌊q⌋₊ / 60 % 60 < 10 ^ (1 + 1) := by
      have := Nat.mod_lt (⌊q⌋₊ / 60) (show 0 < 60 from by norm_num)
      norm_num
      omega
    have := natToChars_length (⌊q⌋₊ / 60 % 60) 1 hlt
    rw [padStart_length]
    omega
  have hsec : (padStart '0' 2 (natToChars (⌊q⌋₊ % 60))).length = 2 := by
    have hlt : ⌊q⌋₊ % 60 < 10 ^ (1 + 1) := by
      have := Nat.mod_lt ⌊q⌋₊ (show 0 < 60 from by norm_num)
      norm_num
      omega
    have := natToChars_length (⌊q⌋₊ % 60) 1 hlt
    rw [padStart_length]
    omega
  have hmsw : (padStart '0' 3 (intToChars
      (jsRound ((q - (jsFloor q : ℚ)) * 1000)))).length = 3 := by
    obtain ⟨n, hn⟩ : ∃ n : ℕ,
        jsRound ((q - (jsFloor q : ℚ)) * 1000) = (n : ℤ) :=
      ⟨(jsRound ((q - (jsFloor q : ℚ)) * 1000)).toNat, by omega⟩
    rw [hn, intToChars_natCast]
    have hlt : n < 10 ^ (2 + 1) := by
      rw [hn] at hms999
      norm_num
      omega
    have := natToChars_length n 2 hlt
    rw [padStart_length]
    omega
  refine ⟨hms0, hms999, format_srt_decomp q hq, hmin, hsec, hmsw, ?_,
    fmt_3725⟩
  rw [padStart_length]
  omega

/-- Witness for claim C8 (amended): the decomposition applied at
3725.125 seconds. -/
theorem format_srt_fields_witness :
    formatSrtTimestamp (3725.125 : ℚ) =
      padStart '0' 2 (natToChars (⌊(3725.125 : ℚ)⌋₊ / 3600)) ++ ':' ::
      padStart '0' 2 (natToChars (⌊(3725.125 : ℚ)⌋₊ / 60 % 60)) ++ ':' ::
      padStart '0' 2 (natToChars (⌊(3725.125 : ℚ)⌋₊ % 60)) ++ ',' ::
      padStart '0' 3 (intToChars (jsRound
        (((3725.125 : ℚ) - (jsFloor (3725.125 : ℚ) : ℚ)) * 1000))) :=
  (format_srt_fields 3725.125 (by norm_num) (by
    rw [show jsFloor (3725.125 : ℚ) = 3725 from by
      unfold jsFloor
      exact Int.floor_eq_iff.mpr (by norm_num)]
    norm_num)).2.2.1

/-- Claim C10: when the fractional part is at least 0.9995 the rounded
milliseconds are 1000 and the field is the four-character string 1000;
no carry into the seconds field happens; in particular 0.9996 formats as
00:00:00,1000. -/
theorem format_srt_ms_overflow (q : ℚ) (hq : 0 ≤ q)
    (hfr : (0.9995 : ℚ) ≤ q - (jsFloor q : ℚ)) :
    jsRound ((q - (jsFloor q : ℚ)) * 1000) = 1000 ∧
    formatSrtTimestamp q =
      padStart '0' 2 (natToChars (⌊q⌋₊ / 3600)) ++ ':' ::
      padStart '0' 2 (natToChars (⌊q⌋₊ / 60 % 60)) ++ ':' ::
      padStart '0' 2 (natToChars (⌊q⌋₊ % 60)) ++ ',' ::
      ('1' :: '0' :: '0' :: '0' :: []) ∧
    formatSrtTimestamp (0.9996 : ℚ) = "00:00:00,1000".toList := by
  have hms : jsRound ((q - (jsFloor q : ℚ)) * 1000) = 1000 := by
    have hub := (jsRound_frac_bounds q).2
    have hlb : (1000 : ℤ) ≤ jsRound ((q - (jsFloor q : ℚ)) * 1000) := by
      unfold jsFloor at hfr
      unfold jsRound jsFloor
      apply Int.le_floor.mpr
      push_cast
      nlinarith
    omega
  refine ⟨hms, ?_, fmt_09996⟩
  rw [format_srt_decomp q hq, hms]
  rw [show padStart '0' 3 (intToChars (1000 : ℤ)) =
    ('1' :: '0' :: '0' :: '0' :: []) from by decide]

/-- Witness for claim C10 at 0.9996 seconds. -/
theorem format_srt_ms_overflow_witness :
    formatSrtTimestamp (0.9996 : ℚ) = "00:00:00,1000".toList :=
  (format_srt_ms_overflow 0.9996 (by norm_num) (by
    rw [show jsFloor (0.9996 : ℚ) = 0 from by
      unfold jsFloor
      exact Int.floor_eq_iff.mpr (by norm_num)]
    norm_num)).2.2

/-! ### Frame compositor line-splitting claims -/

/-- firstSpaceIdx returns a space position and is minimal. -/
lemma firstSpaceIdx_spec (cs : List Char) :
    ∀ i, firstSpaceIdx cs = some i →
      cs.get? i = some ' ' ∧ ∀ j, cs.get? j = some ' ' → i ≤ j := by
  induction cs with
  | nil => intro i h; cases h
  | cons c rest ih =>
    intro i h
    unfold firstSpaceIdx at h
    split_ifs at h with hc
    · injection h with h
      subst h
      subst hc
      exact ⟨rfl, fun j _ => Nat.zero_le j⟩
    · cases hfs : firstSpaceIdx rest with
      | none => rw [hfs] at h; cases h
      | some i' =>
        rw [hfs] at h
        simp only [Option.map_some'] at h
        obtain ⟨hget, hmin⟩ := ih i' hfs
        injection h with h
        subst h
        refine ⟨by simpa using hget, ?_⟩
        intro j hj
        cases j with
        | zero =>
          rw [List.get?_cons_zero] at hj
          injection hj with hj
          exact absurd hj hc
        | succ m =>
          rw [List.get?_cons_succ] at hj
          exact Nat.succ_le_succ (hmin m hj)

/-- When firstSpaceIdx finds nothing there is no space at all. -/
lemma firstSpaceIdx_none_spec (cs : List Char) :
    firstSpaceIdx cs = none → ∀ j, cs.get? j ≠ some ' ' := by
  induction cs with
  | nil => intro _ j; simp
  | cons c rest ih =>
    intro h j
    unfold firstSpaceIdx at h
    split_ifs at h with hc
    · rw [Option.map_eq_none'] at h
      cases j with
      | zero =>
        rw [List.get?_cons_zero]
        intro hj
        injection hj with hj
        exact hc hj
      | succ m =>
        rw [List.get?_cons_succ]
        exact ih h m

/-- lastSpaceLE returns a space position at or below the bound and is
maximal among those. -/
lemma lastSpaceLE_spec (cs : List Char) :
    ∀ p i, lastSpaceLE cs p = some i →
      i ≤ p ∧ cs.get? i = some ' ' ∧
        ∀ j, j ≤ p → cs.get? j = some ' ' → j ≤ i := by
  intro p
  induction p with
  | zero =>
    intro i h
    unfold lastSpaceLE at h
    split_ifs at h with h0
    · injection h with h
      subst h
      exact ⟨le_refl 0, h0, fun j hj _ => hj⟩
  | succ n ih =>
    intro i h
    unfold lastSpaceLE at h
    split_ifs at h with hn
    · injection h with h
      subst h
      exact ⟨le_refl _, hn, fun j hj _ => hj⟩
    · obtain ⟨h1, h2, h3⟩ := ih i h
      refine ⟨Nat.le_succ_of_le h1, h2, ?_⟩
      intro j hj hsp
      rcases Nat.lt_or_ge j (n + 1) with hlt | hge
      · exact h3 j (Nat.lt_succ_iff.mp hlt) hsp
      · rw [le_antisymm hj hge] at hsp
        exact absurd hsp hn

/-- When lastSpaceLE finds nothing there is no space at or below the
bound. -/
lemma lastSpaceLE_none_spec (cs : List Char) :
    ∀ p, lastSpaceLE cs p = none → ∀ j, j ≤ p → cs.get? j ≠ some ' ' := by
  intro p
  induction p with
  | zero =>
    intro h j hj
    unfold lastSpaceLE at h
    split_ifs at h with h0
    rw [Nat.le_zero.mp hj]
    exact h0
  | succ n ih =>
    intro h j hj
    unfold lastSpaceLE at h
    split_ifs at h with hn
    rcases Nat.lt_or_ge j (n + 1) with hlt | hge
    · exact ih h j (Nat.lt_succ_iff.mp hlt)
    · rw [le_antisymm hj hge]
      exact hn

/-- The first candidate split position of drawFrame line 370: the space
before the midpoint if strictly closer, else the space after. -/
def splitPos0Of (text : List Char) : Int :=
  if ((text.length / 2 : ℕ) : ℤ) - jsLastIndexOfSpace text (text.length / 2)
      < jsIndexOfSpaceFrom text (text.length / 2)
        - ((text.length / 2 : ℕ) : ℤ) then
    jsLastIndexOfSpace text (text.length / 2)
  else jsIndexOfSpaceFrom text (text.length / 2)

/-- The final split position of drawFrame line 371: fall back to the
other side when the chosen side does not exist. -/
def splitPosOf (text : List Char) : Int :=
  if splitPos0Of text = -1 then
    (if jsLastIndexOfSpace text (text.length / 2) ≠ -1 then
      jsLastIndexOfSpace text (text.length / 2)
    else jsIndexOfSpaceFrom text (text.length / 2))
  else splitPos0Of text

/-- computeLines on a long two-line text splits at splitPosOf. -/
lemma computeLines_pos (maxLines : ℕ) (text : List Char)
    (h : maxLines = 2 ∧ text.length > 20 ∧ ' ' ∈ text) :
    computeLines maxLines text =
      if splitPosOf text ≠ -1 then
        [trimChars (text.take (splitPosOf text).toNat),
         trimChars (text.drop (splitPosOf text).toNat)]
      else [text] := by
  unfold computeLines splitPosOf splitPos0Of
  rw [if_pos h]

/-- Distance of an index from the midpoint index. -/
def midDist (mid j : ℕ) : ℕ := ((mid : ℤ) - (j : ℤ)).natAbs

/-- Claim C5 as amended: with maxLines = 2, a text longer than 20
characters containing a space is split into exactly two trimmed lines at
a space index nearest to floor(length/2), never mid-word, and when two
spaces are equidistant from that midpoint the later space wins;
otherwise the text stays a single line. -/
theorem compute_lines_split (maxLines : ℕ) (text : List Char) :
    (¬ (maxLines = 2 ∧ text.length > 20 ∧ ' ' ∈ text) →
      computeLines maxLines text = [text]) ∧
    (maxLines = 2 → text.length > 20 → ' ' ∈ text →
      ∃ p : ℕ, text.get? p = some ' ' ∧
        computeLines maxLines text =
          [trimChars (text.take p), trimChars (text.drop p)] ∧
        (∀ j, text.get? j = some ' ' →
          midDist (text.length / 2) p ≤ midDist (text.length / 2) j) ∧
        (∀ j, text.get? j = some ' ' →
          midDist (text.length / 2) j = midDist (text.length / 2) p →
          j ≤ p)) := by
  constructor
  · intro hnot
    unfold computeLines
    rw [if_neg hnot]
  · intro h2 hlen hmem
    have hcond : maxLines = 2 ∧ text.length > 20 ∧ ' ' ∈ text :=
      ⟨h2, hlen, hmem⟩
    cases hbs : lastSpaceLE text (text.length / 2) with
    | some b =>
      obtain ⟨hble, hbsp, hbmax⟩ :=
        lastSpaceLE_spec text (text.length / 2) b hbs
      have hbv : jsLastIndexOfSpace text (text.length / 2) = (b : ℤ) := by
        unfold jsLastIndexOfSpace
        rw [hbs]
      cases has : firstSpaceIdx (text.drop (text.length / 2)) with
      | some a' =>
        obtain ⟨hasp', hamin'⟩ := firstSpaceIdx_spec _ a' has
        have hasp : text.get? (a' + text.length / 2) = some ' ' := by
          rw [List.get?_drop] at hasp'
          rw [Nat.add_comm]
          exact hasp'
        have hamin : ∀ j, text.length / 2 ≤ j → text.get? j = some ' ' →
            a' + text.length / 2 ≤ j := by
          intro j hmj hjs
          have hdj : (text.drop (text.length / 2)).get?
              (j - text.length / 2) = some ' ' := by
            rw [List.get?_drop]
            rw [show text.length / 2 + (j - text.length / 2) = j from by
              omega]
            exact hjs
          have := hamin' _ hdj
          omega
        have hav : jsIndexOfSpaceFrom text (text.length / 2)
            = ((a' + text.length / 2 : ℕ) : ℤ) := by
          unfold jsIndexOfSpaceFrom
          rw [has]
          rfl
        rcases lt_or_ge (((text.length / 2 : ℕ) : ℤ) - b)
            (((a' + text.length / 2 : ℕ) : ℤ)
              - ((text.length / 2 : ℕ) : ℤ)) with hcmp | hcmp
        · have hs0 : splitPos0Of text = (b : ℤ) := by
            unfold splitPos0Of
            rw [hbv, hav, if_pos hcmp]
          have hsv : splitPosOf text = (b : ℤ) := by
            unfold splitPosOf
            rw [hs0, if_neg (by omega)]
          refine ⟨b, hbsp, ?_, ?_, ?_⟩
          · rw [computeLines_pos maxLines text hcond, hsv,
              if_pos (by omega : ((b : ℤ)) ≠ -1),
              show ((b : ℤ)).toNat = b from by omega]
          · intro j hj
            unfold midDist
            rcases le_or_lt j (text.length / 2) with hle | hlt
            · have := hbmax j hle hj
              omega
            · have := hamin j (le_of_lt hlt) hj
              omega
          · intro j hj hd
            unfold midDist at hd
            rcases le_or_lt j (text.length / 2) with hle | hlt
            · have := hbmax j hle hj
              omega
            · have := hamin j (le_of_lt hlt) hj
              omega
        · have hs0 : splitPos0Of text
              = ((a' + text.length / 2 : ℕ) : ℤ) := by
            unfold splitPos0Of
            rw [hbv, hav, if_neg (not_lt.mpr hcmp)]
          have hsv : splitPosOf text
              = ((a' + text.length / 2 : ℕ) : ℤ) := by
            unfold splitPosOf
            rw [hs0, if_neg (by omega)]
          refine ⟨a' + text.length / 2, hasp, ?_, ?_, ?_⟩
          · rw [computeLines_pos maxLines text hcond, hsv,
              if_pos (by omega :
                ((a' + text.length / 2 : ℕ) : ℤ) ≠ -1),
              show ((a' + text.length / 2 : ℕ) : ℤ).toNat
                = a' + text.length / 2 from by omega]
          · intro j hj
            unfold midDist
            rcases le_or_lt j (text.length / 2) with hle | hlt
            · have := hbmax j hle hj
              omega
            · have := hamin j (le_of_lt hlt) hj
              omega
          · intro j hj hd
            unfold midDist at hd
            rcases le_or_lt j (text.length / 2) with hle | hlt
            · have := hbmax j hle hj
              omega
            · have := hamin j (le_of_lt hlt) hj
              omega
      | none =>
        have hnone := firstSpaceIdx_none_spec _ has
        have hnosp : ∀ j, text.length / 2 ≤ j →
            text.get? j ≠ some ' ' := by
          intro j hmj hjs
          have hdj : (text.drop (text.length / 2)).get?
              (j - text.length / 2) = some ' ' := by
            rw [List.get?_drop]
            rw [show text.length / 2 + (j - text.length / 2) = j from by
              omega]
            exact hjs
          exact hnone _ hdj
        have hav : jsIndexOfSpaceFrom text (text.length / 2) = -1 := by
          unfold jsIndexOfSpaceFrom
          rw [has]
          rfl
        have hs0 : splitPos0Of text = -1 := by
          unfold splitPos0Of
          rw [hbv, hav, if_neg (by omega)]
        have hsv : splitPosOf text = (b : ℤ) := by
          unfold splitPosOf
          rw [hs0, if_pos rfl, hbv, if_pos (by omega)]
        refine ⟨b, hbsp, ?_, ?_, ?_⟩
        · rw [computeLines_pos maxLines text hcond, hsv,
            if_pos (by omega : ((b : ℤ)) ≠ -1),
            show ((b : ℤ)).toNat = b from by omega]
        · intro j hj
          unfold midDist
          rcases le_or_lt j (text.length / 2) with hle | hlt
          · have := hbmax j hle hj
            omega
          · exact absurd hj (hnosp j (le_of_lt hlt))
        · intro j hj hd
          rcases le_or_lt j (text.length / 2) with hle | hlt
          · have := hbmax j hle hj
            unfold midDist at hd
            omega
          · exact absurd hj (hnosp j (le_of_lt hlt))
    | none =>
      have hbnone := lastSpaceLE_none_spec text (text.length / 2) hbs
      have hbv : jsLastIndexOfSpace text (text.length / 2) = -1 := by
        unfold jsLastIndexOfSpace
        rw [hbs]
      cases has : firstSpaceIdx (text.drop (text.length / 2)) with
      | none =>
        exfalso
        obtain ⟨n, hn⟩ := List.mem_iff_get?.mp hmem
        rcases le_or_lt n (text.length / 2) with hle | hlt
        · exact hbnone n hle hn
        · have hnone := firstSpaceIdx_none_spec _ has
          have hdj : (text.drop (text.length / 2)).get?
              (n - text.length / 2) = some ' ' := by
            rw [List.get?_drop]
            rw [show text.length / 2 + (n - text.length / 2) = n from by
              omega]
            exact hn
          exact hnone _ hdj
      | some a' =>
        obtain ⟨hasp', hamin'⟩ := firstSpaceIdx_spec _ a' has
        have hasp : text.get? (a' + text.length / 2) = some ' ' := by
          rw [List.get?_drop] at hasp'
          rw [Nat.add_comm]
          exact hasp'
        have hamin : ∀ j, text.length / 2 ≤ j → text.get? j = some ' ' →
            a' + text.length / 2 ≤ j := by
          intro j hmj hjs
          have hdj : (text.drop (text.length / 2)).get?
              (j - text.length / 2) = some ' ' := by
            rw [List.get?_drop]
            rw [show text.length / 2 + (j - text.length / 2) = j from by
              omega]
            exact hjs
          have := hamin' _ hdj
          omega
        have hav : jsIndexOfSpaceFrom text (text.length / 2)
            = ((a' + text.length / 2 : ℕ) : ℤ) := by
          unfold jsIndexOfSpaceFrom
          rw [has]
          rfl
        have hsv : splitPosOf text
            = ((a' + text.length / 2 : ℕ) : ℤ) := by
          unfold splitPosOf splitPos0Of
          rw [hbv, hav]
          rcases lt_or_ge (((text.length / 2 : ℕ) : ℤ) - (-1))
              (((a' + text.length / 2 : ℕ) : ℤ)
                - ((text.length / 2 : ℕ) : ℤ)) with hcmp | hcmp
          · rw [if_pos hcmp, if_pos rfl, if_neg (by omega)]
          · rw [if_neg (not_lt.mpr hcmp), if_neg (by omega)]
        refine ⟨a' + text.length / 2, hasp, ?_, ?_, ?_⟩
        · rw [computeLines_pos maxLines text hcond, hsv,
            if_pos (by omega :
              ((a' + text.length / 2 : ℕ) : ℤ) ≠ -1),
            show ((a' + text.length / 2 : ℕ) : ℤ).toNat
              = a' + text.length / 2 from by omega]
        · intro j hj
          unfold midDist
          rcases le_or_lt j (text.length / 2) with hle | hlt
          · exact absurd hj (hbnone j hle)
          · have := hamin j (le_of_lt hlt) hj
            omega
        · intro j hj hd
          rcases le_or_lt j (text.length / 2) with hle | hlt
          · exact absurd hj (hbnone j hle)
          · have := hamin j (le_of_lt hlt) hj
            unfold midDist at hd
            omega

/-- Counterexample to claim C5's tie-break: in the 22-character text the
spaces at indices 9 and 13 are equidistant from the exact middle 11, yet
the code splits at the later space 13, not the earlier 9. -/
theorem compute_lines_tie_refuted :
    computeLines 2 ("abcdefghi jkl mnopqrst".toList) =
      ["abcdefghi jkl".toList, "mnopqrst".toList] ∧
    computeLines 2 ("abcdefghi jkl mnopqrst".toList) ≠
      ["abcdefghi".toList, "jkl mnopqrst".toList] := by
  constructor
  · decide
  · decide

/-- Witness for claim C5 (amended): the single-line clause applied at a
concrete short text. -/
theorem compute_lines_split_witness :
    computeLines 2 ("short text".toList) = ["short text".toList] :=
  (compute_lines_split 2 ("short text".toList)).1 (by decide)
